import Mathlib

/-!
# Verification of the MRI analysis pipeline (backend)

Shallow embedding of the analysis pipeline of the `mri-platform` backend:
the majority-vote aggregator (`ml/predictor.py`), the pipeline runner and
normative-volume comparison (`ml_runner.py`), the volumetric analyzer
(`volumetric_analyzer.py`), intensity normalization (`ml/nifti_slicer.py`)
and the background orchestrator (`routes/predict_api.py`).

Python floats are idealized as rationals; the Python builtin `round(x, n)`
is modelled as round-half-to-even on rationals (`roundTo`).
-/

namespace MriPlatform

/-- Round-half-to-even on rationals, modelling the Python `round` to integer. -/
def rhe (q : ℚ) : ℤ :=
  if q - ⌊q⌋ < 1/2 then ⌊q⌋
  else if (1:ℚ)/2 < q - ⌊q⌋ then ⌊q⌋ + 1
  else if ⌊q⌋ % 2 = 0 then ⌊q⌋ else ⌊q⌋ + 1

/-- Evaluates `round(q, n)` of Python: round half-to-even at `n` decimal digits. -/
def roundTo (n : ℕ) (q : ℚ) : ℚ :=
  (rhe (q * 10 ^ n) : ℚ) / 10 ^ n

theorem abs_rhe_sub_le (q : ℚ) : |(rhe q : ℚ) - q| ≤ 1/2 := by
  have hfl : (⌊q⌋ : ℚ) ≤ q := Int.floor_le q
  have hfu : q < ⌊q⌋ + 1 := Int.lt_floor_add_one q
  unfold rhe
  split
  · rw [abs_sub_comm, abs_of_nonneg (by linarith)]
    linarith
  · split
    · push_cast
      rw [abs_of_nonneg (by linarith)]
      linarith
    · split
      · rw [abs_sub_comm, abs_of_nonneg (by linarith)]
        linarith
      · push_cast
        rw [abs_of_nonneg (by linarith)]
        linarith

theorem abs_roundTo_sub_le (n : ℕ) (q : ℚ) :
    |roundTo n q - q| ≤ 1 / (2 * 10 ^ n) := by
  have h10 : (0:ℚ) < 10 ^ n := by positivity
  have h := abs_rhe_sub_le (q * 10 ^ n)
  unfold roundTo
  have hrw : (rhe (q * 10 ^ n) : ℚ) / 10 ^ n - q
      = ((rhe (q * 10 ^ n) : ℚ) - q * 10 ^ n) / 10 ^ n := by
    field_simp
    ring
  rw [hrw, abs_div, abs_of_pos h10, div_le_div_iff₀ h10 (by positivity)]
  calc |(rhe (q * 10 ^ n) : ℚ) - q * 10 ^ n| * (2 * 10 ^ n)
      ≤ (1/2) * (2 * 10 ^ n) := by
        apply mul_le_mul_of_nonneg_right h (by positivity)
    _ = 1 * 10 ^ n := by ring

/-! ## Majority-vote aggregator (`ml/predictor.py`, `MRIPredictor.predict_patient`)

A per-slice prediction is a class label together with a confidence value
(`predict_single_image` returns a predicted class and a confidence).
`predict_patient` tallies the labels with a `Counter` and takes
`most_common(1)`.  In CPython, `Counter.most_common(1)` is
`max(counter.items(), key=itemgetter(1))` over the items in insertion order
(first occurrence of each label), where `max` keeps the earliest maximal
item.  `firstKeys` reproduces the insertion-order key list and `pickBest`
reproduces `max` over it. -/

structure SlicePred where
  label : String
  conf : ℚ
deriving DecidableEq, Repr

/-- The distinct labels of a list, each at its first occurrence, in order —
the key insertion order of the `Counter(predicted_classes)` dict. -/
def firstKeys : List String → List String
  | [] => []
  | c :: cs => c :: (firstKeys cs).filter (fun x => x ≠ c)

/-- Model of `max(..., key=cnt)` over `b :: l`: the current best is replaced
only by a strictly greater element, so the first maximal element wins. -/
def pickBest (cnt : String → ℕ) : String → List String → String
  | b, [] => b
  | b, c :: cs => pickBest cnt (if cnt b < cnt c then c else b) cs

/-- Model of `Counter(labels).most_common(1)[0][0]`: the first-encountered label with
the maximal number of occurrences (`""` only for an empty list, a case the
source excludes by raising). -/
def majorityLabel (labels : List String) : String :=
  match firstKeys labels with
  | [] => ""
  | k :: ks => pickBest (fun c => labels.count c) k ks

/-- The class vocabulary of the model, `MRIPredictor.class_names`. -/
def classNames : List String := ["AD", "CN", "MCI"]

structure PatientResult where
  patientDiagnosis : String
  confidence : ℚ
  consensusStrength : ℚ
  /-- per class: (label, vote count, vote percentage) -/
  voteDistribution : List (String × ℕ × ℚ)
  totalImagesProcessed : ℕ
deriving DecidableEq, Repr

/-- Model of `MRIPredictor.predict_patient` on the successfully processed per-slice
predictions (source lines 185–216): majority vote, consensus strength,
mean confidence over the predictions matching the final diagnosis, and a
vote distribution over every class of the vocabulary. -/
def predictPatient (preds : List SlicePred) : PatientResult :=
  let labels := preds.map (·.label)
  let finalDiagnosis := majorityLabel labels
  let votesForFinal := labels.count finalDiagnosis
  let consensus : ℚ := (votesForFinal : ℚ) / (labels.length : ℚ) * 100
  let confsForFinal := (preds.filter (fun p => p.label = finalDiagnosis)).map (·.conf)
  let avgConfidence : ℚ :=
    if confsForFinal.length = 0 then 0 else confsForFinal.sum / (confsForFinal.length : ℚ)
  { patientDiagnosis := finalDiagnosis
    confidence := roundTo 2 avgConfidence
    consensusStrength := roundTo 1 consensus
    voteDistribution := classNames.map (fun cls =>
      (cls, labels.count cls, roundTo 1 ((labels.count cls : ℚ) / (labels.length : ℚ) * 100)))
    totalImagesProcessed := labels.length }

/-! ## Classifier implementation selection (`ml/predictor.py`,
`MRIPredictor.predict_single_image`, and `ml_runner.py`, `run_model`) -/

/-- Which implementation produced the prediction of a slice. -/
inductive PredSource
  | real
  | mock
deriving DecidableEq, Repr

/-- Outcome of the real-model path for one slice image: either a prediction
or an exception (corrupt image, inference error, …). -/
inductive ImgOutcome
  | ok (label : String) (conf : ℚ)
  | raises
deriving DecidableEq, Repr

/-- Which implementation answers `predict_single_image` (predictor.py
lines 116–149): if the model is not available, `_mock_prediction`; if the
real path raises for this image, the except branch returns
`_mock_prediction` as well; otherwise the prediction of the real model. -/
def predictSingleImageSource (available : Bool) (img : ImgOutcome) : PredSource :=
  if ¬ available then .mock
  else
    match img with
    | .ok _ _ => .real
    | .raises => .mock

/-- The sources of the per-slice predictions collected by `predict_patient`
over the slice images of one run. -/
def runPredictionSources (available : Bool) (imgs : List ImgOutcome) : List PredSource :=
  imgs.map (predictSingleImageSource available)

/-! ## `run_model` (`ml_runner.py`) -/

/-- The value `run_model` returns: the stand-in `_run_model_mock` result,
the `_error_response` dict, or the real formatted result (prediction label
and confidence; the remaining fields are irrelevant to the claims). -/
inductive MLResult
  | mockRun
  | errorResp (msg : String)
  | success (prediction : String) (confidence : ℚ)
deriving DecidableEq, Repr

/-- Environment of one `run_model` call: the outcome of each stage it
consults, in the order the source consults them. -/
structure RunModelEnv where
  /-- `config.USE_MOCK_MODEL` (set to `False` in `config.py`). -/
  useMock : Bool
  /-- whether `run_cat12_preprocessing` raises (`run_model` does not catch
  step-1 exceptions). -/
  cat12Raises : Bool
  /-- result of `NIfTISlicer.extract_middle_slices`: `none` models an
  exception inside step 2, `some []` the slicer returning no images. -/
  sliceResult : Option (List String)
  /-- `os.path.exists(CONVIT_CHECKPOINT_PATH)` -/
  checkpointExists : Bool
  /-- `predictor.is_available()` -/
  predictorAvailable : Bool
  /-- outcome of `predictor.predict_patient` on the slices -/
  predictOutcome : Except Unit (String × ℚ)
deriving Repr

/-- Model of `run_model` (ml_runner.py lines 27–168): a step-2 failure (exception or
empty slice list) is caught and returns `_error_response`; step 3 falls back
to the stand-in `_run_model_mock` wholesale when the checkpoint is missing,
the predictor is unavailable, or inference raises (the in-repo
`ml_runner_mock` import succeeds).  `.error ()` models an exception escaping
`run_model`, e.g. CAT12 raising in step 1. -/
def runModel (env : RunModelEnv) : Except Unit MLResult :=
  if env.useMock then .ok .mockRun
  else if env.cat12Raises then .error ()
  else
    match env.sliceResult with
    | none => .ok (.errorResp "Slice extraction failed")
    | some [] => .ok (.errorResp "Slice extraction failed")
    | some (_ :: _) =>
      if ¬ env.checkpointExists then .ok .mockRun
      else if ¬ env.predictorAvailable then .ok .mockRun
      else
        match env.predictOutcome with
        | .error _ => .ok .mockRun
        | .ok r => .ok (.success r.1 r.2)

/-! ## Background orchestrator (`routes/predict_api.py`,
`run_analysis_background`) -/

/-- Outcome of one visualization upload in step 4: uploaded, upload
returned no URL without raising (`upload_to_storage` catches internally),
the decode/upload raised (recorded in `report_errors`), or the chart data
was empty. -/
inductive VizOutcome
  | uploaded
  | uploadFailed
  | uploadRaised
  | noData
deriving DecidableEq, Repr

/-- Outcome of one PDF report attempt in step 6: uploaded, upload returned
no URL (`"<type> upload failed"` recorded), or building/raising
(`"<type> PDF failed"` recorded). -/
inductive PdfOutcome
  | uploaded
  | uploadFailed
  | buildRaised
deriving DecidableEq, Repr

/-- Errors a visualization outcome appends to `report_errors`. -/
def vizErrors (name : String) : VizOutcome → List String
  | .uploadRaised => [name ++ " upload failed"]
  | _ => []

/-- Errors a PDF outcome appends to `report_errors`. -/
def pdfErrors (name : String) : PdfOutcome → List String
  | .uploadFailed => [name ++ " upload failed"]
  | .buildRaised => [name ++ " PDF failed"]
  | .uploaded => []

/-- Environment of one `run_analysis_background` call: the outcome of each
stage, in source order. -/
structure OrchEnv where
  /-- whether `get_supabase_client()` (line 59) raises: it runs BEFORE the
  `try`, so when it raises nothing else of the task runs — no status update
  and no `finally` cleanup. -/
  clientInitRaises : Bool
  /-- the `run_model` call (line 74); `.error ()` = it raised -/
  mlRun : Except Unit MLResult
  /-- `create_prediction_record` returned a truthy error (line 78 raises) -/
  predInsertErr : Bool
  /-- `run_similarity_analysis` raised (uncaught before the outer handler) -/
  similarityRaises : Bool
  /-- chart generation in step 3 raised -/
  chartsRaise : Bool
  vizSimilarity : VizOutcome
  vizVolume : VizOutcome
  vizConfidence : VizOutcome
  pdfTechnical : PdfOutcome
  pdfClinician : PdfOutcome
  pdfPatient : PdfOutcome
  /-- local files the run creates besides the upload (slices, mwp1, …) -/
  localFilesCreated : List String
  /-- whether `os.remove(file_path)` in the `finally` block raises: its
  exception is swallowed by `except: pass`, leaving the file in place. -/
  removeRaises : Bool
deriving Repr

structure OrchResult where
  sessionStatus : String
  finalFiles : List String
deriving DecidableEq, Repr

/-- Model of `run_analysis_background` (predict_api.py lines 44–319).
Before the `try`, `get_supabase_client()` is called (line 59); if it raises,
the exception propagates out of the thread target: no status is written
(modelled as the empty string) and the `finally` block never runs, so the
file system keeps `fs`.  Otherwise the body runs under
`try/except/finally`: any exception before the decision point reaches the
handler, which sets the session status to `failed`; otherwise the final
status is decided from `report_errors` and `has_any_report` (lines 263–288)
and written by `update_session_status`.  Step 1.5 (viewer slices) catches
all its exceptions and only contributes `slice_urls`, so it cannot change
the status and carries no outcome here.  The `finally` block checks
`os.path.exists(file_path)` and then ATTEMPTS `os.remove(file_path)` inside
`try/except: pass`: removal happens only when that call does not raise. -/
def runAnalysisBackground (env : OrchEnv) (fs : List String) (filePath : String) :
    OrchResult :=
  if env.clientInitRaises then
    { sessionStatus := ""
      finalFiles := fs }
  else
    let status :=
      match env.mlRun with
      | .error _ => "failed"
      | .ok _ =>
        if env.predInsertErr then "failed"
        else if env.similarityRaises then "failed"
        else if env.chartsRaise then "failed"
        else
          let reportErrors :=
            vizErrors "similarity_plot_url" env.vizSimilarity
              ++ vizErrors "volume_chart_url" env.vizVolume
              ++ vizErrors "confidence_chart_url" env.vizConfidence
              ++ pdfErrors "technical" env.pdfTechnical
              ++ pdfErrors "clinician" env.pdfClinician
              ++ pdfErrors "patient" env.pdfPatient
          let hasAnyReport := env.pdfTechnical = .uploaded ∨ env.pdfClinician = .uploaded
              ∨ env.pdfPatient = .uploaded
          if reportErrors ≠ [] ∧ ¬ hasAnyReport then "failed"
          else if reportErrors ≠ [] then "completed"
          else "completed"
    let bodyFiles := fs ++ env.localFilesCreated
    { sessionStatus := status
      finalFiles :=
        if filePath ∈ bodyFiles then
          if env.removeRaises then bodyFiles
          else bodyFiles.filter (fun f => f ≠ filePath)
        else bodyFiles }

/-! ## Normative volume comparison (`ml_runner.py`, `get_volume_comparison`) -/

structure NormRange where
  min : ℚ
  max : ℚ
deriving DecidableEq, Repr

/-- Constants from `config.NORMATIVE_VOLUMES`. -/
def normTotalBrain : NormRange := ⟨1100, 1400⟩

def normGrayMatter : NormRange := ⟨450, 600⟩

def normWhiteMatter : NormRange := ⟨400, 550⟩

def normCsf : NormRange := ⟨150, 300⟩

def normHippocampus : NormRange := ⟨3, 9/2⟩

def normVentricles : NormRange := ⟨20, 50⟩

/-- One entry of `get_volume_comparison` (ml_runner.py lines 183–196):
the status and `deviation_percent = round(abs(deviation), 1)`. -/
def compareToNormative (value : ℚ) (norm : NormRange) : String × ℚ :=
  if value < norm.min then
    ("Below Normal", roundTo 1 |(norm.min - value) / norm.min * 100|)
  else if norm.max < value then
    ("Above Normal", roundTo 1 |(value - norm.max) / norm.max * 100|)
  else
    ("Normal",
      roundTo 1 |(value - (norm.min + norm.max) / 2) / ((norm.min + norm.max) / 2) * 100|)

/-- The measured volumes `get_volume_comparison` reads from `ml_results`
(`None` when the key is absent). -/
structure MLVolumes where
  brainVolume : Option ℚ
  gmVolume : Option ℚ
  wmVolume : Option ℚ
  csfVolume : Option ℚ
  hippocampalVolume : Option ℚ
deriving DecidableEq, Repr

/-- Model of `get_volume_comparison` over the five mapped regions, in source order. -/
def getVolumeComparison (r : MLVolumes) : List (String × String × ℚ) :=
  ([("total_brain", r.brainVolume, normTotalBrain),
    ("gray_matter", r.gmVolume, normGrayMatter),
    ("white_matter", r.wmVolume, normWhiteMatter),
    ("csf", r.csfVolume, normCsf),
    ("hippocampus", r.hippocampalVolume, normHippocampus)]).filterMap
    (fun entry => entry.2.1.map (fun v => (entry.1, compareToNormative v entry.2.2)))

/-! ## Volumetric analyzer (`volumetric_analyzer.py`,
`extract_volumes_from_nifti`) -/

/-- A loaded NIfTI probability map: the flattened voxel values and the three
voxel spacings from the header (`get_zooms()[:3]`). -/
structure NiftiImage where
  data : List ℚ
  zooms : ℚ × ℚ × ℚ
deriving DecidableEq, Repr

/-- Computes `voxel_volume_mm3 = np.prod(voxel_dims)`. -/
def voxelVolume (img : NiftiImage) : ℚ :=
  img.zooms.1 * img.zooms.2.1 * img.zooms.2.2

structure TissueVolumes where
  brain : ℚ
  gm : ℚ
  wm : ℚ
  csf : ℚ
  hippo : ℚ
  ventricles : ℚ
deriving DecidableEq, Repr

/-- Model of `extract_volumes_from_nifti(mwp1_path, mwp2_path)` (lines 25–98).
`mwp2 = none` covers both a missing `mwp2` path and a failed load (the
except branch leaves `wm_from_real = False`). -/
def extractVolumesFromNifti (mwp1 : NiftiImage) (mwp2 : Option NiftiImage) :
    TissueVolumes :=
  let gmVolume := mwp1.data.sum * voxelVolume mwp1 / 1000
  let wmVolume :=
    match mwp2 with
    | some w => w.data.sum * voxelVolume w / 1000
    | none => gmVolume * (88/100)
  let totalBrain := gmVolume + wmVolume
  let tbvRatio := if 0 < totalBrain then totalBrain / 1250 else 1
  { brain := roundTo 2 totalBrain
    gm := roundTo 2 gmVolume
    wm := roundTo 2 wmVolume
    csf := roundTo 2 (200 * tbvRatio)
    hippo := roundTo 2 ((38/10) * tbvRatio)
    ventricles := roundTo 2 (35 * tbvRatio) }

/-! ## Intensity normalization (`ml/nifti_slicer.py`,
`NIfTISlicer._normalize_intensity`) -/

/-- Model of `np.percentile(data, p)` with the default linear interpolation over the
sorted flattened voxel values: position `p/100 × (n−1)`, linear between the
two neighbouring order statistics. -/
def percentileLinear (p : ℚ) (data : List ℚ) : ℚ :=
  let s := data.insertionSort (fun a b => a ≤ b)
  let n := s.length
  let pos : ℚ := p / 100 * ((n : ℚ) - 1)
  let i := ⌊pos⌋
  let lower := s.getD i.toNat 0
  let upper := s.getD (i.toNat + 1) lower
  lower + (pos - (i : ℚ)) * (upper - lower)

/-- Model of `_normalize_intensity` (lines 156–168): `p99 = np.percentile(data, 99)`;
if `p99 == 0` return the data unmodified, else clip to `[0, p99]`
(`np.clip`, pointwise `min p99 (max x 0)`) and rescale by `/ p99 * 255`. -/
def normalizeIntensity (data : List ℚ) : List ℚ :=
  let p99 := percentileLinear 99 data
  if p99 = 0 then data
  else data.map (fun x => min p99 (max x 0) / p99 * 255)

theorem pickBest_count_le (cnt : String → ℕ) :
    ∀ (l : List String) (b : String),
      cnt b ≤ cnt (pickBest cnt b l) ∧ ∀ c ∈ l, cnt c ≤ cnt (pickBest cnt b l)
  | [], b => ⟨le_refl _, by simp⟩
  | c :: cs, b => by
    simp only [pickBest]
    have ih := pickBest_count_le cnt cs (if cnt b < cnt c then c else b)
    refine ⟨le_trans ?_ ih.1, ?_⟩
    · split <;> omega
    · intro y hy
      rcases List.mem_cons.mp hy with rfl | hy
      · refine le_trans ?_ ih.1
        split <;> omega
      · exact ih.2 y hy

theorem pickBest_eq_or_mem (cnt : String → ℕ) :
    ∀ (l : List String) (b : String), pickBest cnt b l = b ∨ pickBest cnt b l ∈ l
  | [], _ => Or.inl rfl
  | c :: cs, b => by
    simp only [pickBest]
    rcases pickBest_eq_or_mem cnt cs (if cnt b < cnt c then c else b) with h | h
    · rw [h]
      split
      · exact Or.inr (List.mem_cons_self _ _)
      · exact Or.inl rfl
    · exact Or.inr (List.mem_cons_of_mem _ h)

/-- The function `pickBest` returns the FIRST element attaining the maximal `cnt`, for any
strictly increasing position assignment: any tie sits at an equal or later
position. -/
theorem pickBest_first (cnt pos : String → ℕ) :
    ∀ (l : List String) (b : String),
      (b :: l).Pairwise (fun u v => pos u < pos v) →
      ∀ c, (c = b ∨ c ∈ l) → cnt c = cnt (pickBest cnt b l) →
        pos (pickBest cnt b l) ≤ pos c
  | [], b, _, c, hc, _ => by
    rcases hc with rfl | h
    · exact le_of_eq rfl
    · simp at h
  | c0 :: cs, b, hpw, c, hc, hcnt => by
    rcases List.pairwise_cons.mp hpw with ⟨hb, hpw1⟩
    rcases List.pairwise_cons.mp hpw1 with ⟨hc0, hpwcs⟩
    have hpw2 : ((if cnt b < cnt c0 then c0 else b) :: cs).Pairwise
        (fun u v => pos u < pos v) := by
      refine List.pairwise_cons.mpr ⟨?_, hpwcs⟩
      intro y hy
      split
      · exact hc0 y hy
      · exact hb y (List.mem_cons_of_mem _ hy)
    have ih := pickBest_first cnt pos cs (if cnt b < cnt c0 then c0 else b) hpw2
    have hle := pickBest_count_le cnt cs (if cnt b < cnt c0 then c0 else b)
    simp only [pickBest] at hcnt ⊢
    by_cases hsp : cnt b < cnt c0
    · rw [if_pos hsp] at hcnt ih hle ⊢
      rcases hc with hcb | hm
      · subst hcb
        have h1 := hle.1
        omega
      · rcases List.mem_cons.mp hm with hcc0 | hcs
        · exact ih c (Or.inl hcc0) hcnt
        · exact ih c (Or.inr hcs) hcnt
    · rw [if_neg hsp] at hcnt ih hle ⊢
      rcases hc with hcb | hm
      · exact ih c (Or.inl hcb) hcnt
      · rcases List.mem_cons.mp hm with hcc0 | hcs
        · subst hcc0
          have h1 : cnt b = cnt (pickBest cnt b cs) := by
            have := hle.1
            omega
          have h2 := ih b (Or.inl rfl) h1
          have h3 := hb c (List.mem_cons_self _ _)
          omega
        · exact ih c (Or.inr hcs) hcnt

theorem mem_firstKeys (a : String) (l : List String) : a ∈ firstKeys l ↔ a ∈ l := by
  induction l with
  | nil => simp [firstKeys]
  | cons c cs ih =>
    by_cases hac : a = c
    · subst hac
      simp [firstKeys]
    · simp [firstKeys, List.mem_filter, ih, hac]

/-- The insertion-order key list is strictly ordered by first position in the
original list. -/
theorem firstKeys_pairwise_indexOf (l : List String) :
    (firstKeys l).Pairwise (fun a b => l.indexOf a < l.indexOf b) := by
  induction l with
  | nil => simp [firstKeys]
  | cons c cs ih =>
    rw [firstKeys]
    refine List.pairwise_cons.mpr ⟨?_, ?_⟩
    · intro a ha
      have hac : a ≠ c := by simpa using (List.mem_filter.mp ha).2
      rw [List.indexOf_cons_self, List.indexOf_cons_ne _ (fun h => hac h.symm)]
      exact Nat.succ_pos _
    · have h1 : ((firstKeys cs).filter (fun x => x ≠ c)).Pairwise
          (fun a b => cs.indexOf a < cs.indexOf b) :=
        ih.sublist (List.filter_sublist _)
      refine List.Pairwise.imp_of_mem ?_ h1
      intro a b ha hb hab
      have hac : a ≠ c := by simpa using (List.mem_filter.mp ha).2
      have hbc : b ≠ c := by simpa using (List.mem_filter.mp hb).2
      rw [List.indexOf_cons_ne _ (fun h => hac h.symm),
        List.indexOf_cons_ne _ (fun h => hbc h.symm)]
      omega

theorem majorityLabel_cons (x : String) (xs : List String) :
    majorityLabel (x :: xs)
      = pickBest (fun c => (x :: xs).count c) x ((firstKeys xs).filter (fun y => y ≠ x)) :=
  rfl

theorem count_le_count_majorityLabel (x : String) (xs : List String) (c : String) :
    (x :: xs).count c ≤ (x :: xs).count (majorityLabel (x :: xs)) := by
  rw [majorityLabel_cons]
  have h := pickBest_count_le (fun c => (x :: xs).count c)
    ((firstKeys xs).filter (fun y => y ≠ x)) x
  by_cases hc : c ∈ x :: xs
  · have h1 : c ∈ firstKeys (x :: xs) := (mem_firstKeys c _).mpr hc
    rw [firstKeys] at h1
    rcases List.mem_cons.mp h1 with rfl | hm
    · exact h.1
    · exact h.2 c hm
  · have h0 : (x :: xs).count c = 0 := List.count_eq_zero.mpr hc
    omega

theorem majorityLabel_mem (x : String) (xs : List String) :
    majorityLabel (x :: xs) ∈ x :: xs := by
  rw [majorityLabel_cons]
  rcases pickBest_eq_or_mem (fun c => (x :: xs).count c)
    ((firstKeys xs).filter (fun y => y ≠ x)) x with h | h
  · rw [h]
    exact List.mem_cons_self _ _
  · have h1 := (List.mem_filter.mp h).1
    exact List.mem_cons_of_mem _ ((mem_firstKeys _ _).mp h1)

theorem majorityLabel_indexOf_le (x : String) (xs : List String) (c : String)
    (hc : c ∈ x :: xs)
    (hcnt : (x :: xs).count c = (x :: xs).count (majorityLabel (x :: xs))) :
    (x :: xs).indexOf (majorityLabel (x :: xs)) ≤ (x :: xs).indexOf c := by
  have hpw := firstKeys_pairwise_indexOf (x :: xs)
  rw [firstKeys] at hpw
  rw [majorityLabel_cons] at hcnt ⊢
  have hmem : c ∈ firstKeys (x :: xs) := (mem_firstKeys c _).mpr hc
  rw [firstKeys] at hmem
  exact pickBest_first (fun c => (x :: xs).count c) (fun a => (x :: xs).indexOf a)
    ((firstKeys xs).filter (fun y => y ≠ x)) x hpw c (List.mem_cons.mp hmem) hcnt

theorem rhe_of_lt_half (q : ℚ) (z : ℤ) (h1 : (z:ℚ) ≤ q) (h2 : q < (z:ℚ) + 1/2) :
    rhe q = z := by
  have hz : ⌊q⌋ = z := Int.floor_eq_iff.mpr ⟨h1, by linarith⟩
  unfold rhe
  rw [hz, if_pos (by linarith)]

theorem rhe_of_gt_half (q : ℚ) (z : ℤ) (h1 : (z:ℚ) + 1/2 < q) (h2 : q < (z:ℚ) + 1) :
    rhe q = z + 1 := by
  have hz : ⌊q⌋ = z := Int.floor_eq_iff.mpr ⟨by linarith, by linarith⟩
  unfold rhe
  rw [hz, if_neg (by linarith), if_pos (by linarith)]

theorem roundTo_of_lt_half (n : ℕ) (q : ℚ) (z : ℤ) (h1 : (z:ℚ) ≤ q * 10 ^ n)
    (h2 : q * 10 ^ n < (z:ℚ) + 1/2) : roundTo n q = (z:ℚ) / 10 ^ n := by
  unfold roundTo
  rw [rhe_of_lt_half _ z h1 h2]

theorem roundTo_of_gt_half (n : ℕ) (q : ℚ) (z : ℤ) (h1 : (z:ℚ) + 1/2 < q * 10 ^ n)
    (h2 : q * 10 ^ n < (z:ℚ) + 1) : roundTo n q = ((z:ℚ) + 1) / 10 ^ n := by
  unfold roundTo
  rw [rhe_of_gt_half _ z h1 h2]
  push_cast
  ring

theorem roundTo_zero (n : ℕ) : roundTo n 0 = 0 := by
  unfold roundTo rhe
  norm_num

theorem abs_roundTo_one_sub_le (q : ℚ) : |roundTo 1 q - q| ≤ 1/20 := by
  have h := abs_roundTo_sub_le 1 q
  norm_num at h
  exact h

/-- The confidence field of `predict_patient`, once at least one prediction
matches the final diagnosis. -/
theorem predictPatient_confidence_eq (preds : List SlicePred)
    (h : preds.filter
        (fun q => q.label = majorityLabel (preds.map (fun r => r.label))) ≠ []) :
    (predictPatient preds).confidence
      = roundTo 2
          (((preds.filter (fun q => q.label
                = majorityLabel (preds.map (fun r => r.label)))).map (fun q => q.conf)).sum
            / ((preds.filter (fun q => q.label
                = majorityLabel (preds.map (fun r => r.label)))).length : ℚ)) := by
  simp only [predictPatient]
  congr 1
  rw [List.length_map]
  rw [if_neg (fun h0 => h (List.length_eq_zero.mp h0))]

theorem sum_map_count_cons (L : List String) (a : String) (as : List String) :
    (L.map (fun c => (a :: as).count c)).sum
      = (L.map (fun c => as.count c)).sum + L.count a := by
  induction L with
  | nil => simp
  | cons x L ih =>
    simp only [List.map_cons, List.sum_cons]
    rw [ih]
    simp only [List.count_cons, beq_iff_eq]
    by_cases hxa : x = a
    · subst hxa
      simp only [if_pos rfl]
      omega
    · rw [if_neg hxa, if_neg (fun h => hxa h.symm)]
      omega

theorem count_classNames_eq_one (a : String) (h : a ∈ classNames) :
    classNames.count a = 1 := by
  simp only [classNames] at h ⊢
  rcases List.mem_cons.mp h with rfl | h
  · rfl
  rcases List.mem_cons.mp h with rfl | h
  · rfl
  rcases List.mem_cons.mp h with rfl | h
  · rfl
  · simp at h

theorem sum_count_classNames (labels : List String)
    (h : ∀ x ∈ labels, x ∈ classNames) :
    (classNames.map (fun c => labels.count c)).sum = labels.length := by
  induction labels with
  | nil => simp
  | cons a as ih =>
    rw [sum_map_count_cons, ih (fun x hx => h x (List.mem_cons_of_mem _ hx)),
      count_classNames_eq_one a (h a (List.mem_cons_self _ _))]
    simp

theorem sum_map_div_mul (L : List String) (cnt : String → ℕ) (n : ℚ) :
    (L.map (fun c => (cnt c : ℚ) / n * 100)).sum
      = (((L.map (fun c => cnt c)).sum : ℕ) : ℚ) / n * 100 := by
  induction L with
  | nil => simp
  | cons x L ih =>
    simp only [List.map_cons, List.sum_cons, ih]
    push_cast
    ring

/-- The exact (unrounded) vote percentages over the class vocabulary sum to
100 when every label is from the vocabulary. -/
theorem sum_pct_exact (labels : List String) (hne : labels ≠ [])
    (h : ∀ x ∈ labels, x ∈ classNames) :
    (classNames.map (fun c =>
        (labels.count c : ℚ) / (labels.length : ℚ) * 100)).sum = 100 := by
  rw [sum_map_div_mul, sum_count_classNames labels h]
  have h0 : (labels.length : ℚ) ≠ 0 :=
    Nat.cast_ne_zero.mpr (List.length_pos.mpr hne).ne'
  field_simp

theorem compareToNormative_below (value : ℚ) (norm : NormRange)
    (h : value < norm.min) :
    compareToNormative value norm
      = ("Below Normal", roundTo 1 |(norm.min - value) / norm.min * 100|) := by
  unfold compareToNormative
  rw [if_pos h]

theorem compareToNormative_above (value : ℚ) (norm : NormRange)
    (h1 : ¬ value < norm.min) (h2 : norm.max < value) :
    compareToNormative value norm
      = ("Above Normal", roundTo 1 |(value - norm.max) / norm.max * 100|) := by
  unfold compareToNormative
  rw [if_neg h1, if_pos h2]

theorem compareToNormative_normal (value : ℚ) (norm : NormRange)
    (h1 : ¬ value < norm.min) (h2 : ¬ norm.max < value) :
    compareToNormative value norm
      = ("Normal",
          roundTo 1
            |(value - (norm.min + norm.max) / 2) / ((norm.min + norm.max) / 2) * 100|) := by
  unfold compareToNormative
  rw [if_neg h1, if_neg h2]

/-! ## Claims -/

/-- C1: for every non-empty list of per-slice predictions, `predict_patient`
returns a final diagnosis whose vote count is ≥ the vote count of every
other label; the consensus strength is (votes for the final label)/(total
predictions) × 100 (rounded to one decimal at the result dict, as in the
source); and a tie goes to the label first encountered in iteration order
over the predictions (smallest first index). -/
theorem predict_patient_majority_vote (p : SlicePred) (ps : List SlicePred) :
    (∀ c : String,
        ((p :: ps).map (fun q => q.label)).count c
          ≤ ((p :: ps).map (fun q => q.label)).count
              (predictPatient (p :: ps)).patientDiagnosis) ∧
    (predictPatient (p :: ps)).consensusStrength
      = roundTo 1
          ((((p :: ps).map (fun q => q.label)).count
                (predictPatient (p :: ps)).patientDiagnosis : ℚ)
            / (((p :: ps).map (fun q => q.label)).length : ℚ) * 100) ∧
    ∀ c ∈ (p :: ps).map (fun q => q.label),
      ((p :: ps).map (fun q => q.label)).count c
          = ((p :: ps).map (fun q => q.label)).count
              (predictPatient (p :: ps)).patientDiagnosis →
      ((p :: ps).map (fun q => q.label)).indexOf
          (predictPatient (p :: ps)).patientDiagnosis
        ≤ ((p :: ps).map (fun q => q.label)).indexOf c := by
  have hd : (predictPatient (p :: ps)).patientDiagnosis
      = majorityLabel ((p :: ps).map (fun q => q.label)) := rfl
  refine ⟨?_, rfl, ?_⟩
  · intro c
    rw [hd, List.map_cons]
    exact count_le_count_majorityLabel _ _ c
  · intro c hc hcnt
    rw [hd] at hcnt ⊢
    rw [List.map_cons] at hc hcnt ⊢
    exact majorityLabel_indexOf_le _ _ c hc hcnt

/-- C1 witness: on a concrete tied vote (`CN` and `AD` with two votes each),
the diagnosis is the first-encountered label `CN`, whose first index precedes
that of `AD`. -/
theorem predict_patient_majority_vote_witness :
    (predictPatient [⟨"CN", 1⟩, ⟨"AD", 1⟩, ⟨"CN", 1⟩, ⟨"AD", 1⟩]).patientDiagnosis
        = "CN" ∧
    (([⟨"CN", 1⟩, ⟨"AD", 1⟩, ⟨"CN", 1⟩, ⟨"AD", 1⟩] : List SlicePred).map
        (fun q => q.label)).indexOf
        (predictPatient [⟨"CN", 1⟩, ⟨"AD", 1⟩, ⟨"CN", 1⟩, ⟨"AD", 1⟩]).patientDiagnosis
      ≤ (([⟨"CN", 1⟩, ⟨"AD", 1⟩, ⟨"CN", 1⟩, ⟨"AD", 1⟩] : List SlicePred).map
        (fun q => q.label)).indexOf "AD" := by
  have hd : (predictPatient [⟨"CN", 1⟩, ⟨"AD", 1⟩, ⟨"CN", 1⟩, ⟨"AD", 1⟩]).patientDiagnosis
      = "CN" := by
    simp [predictPatient, majorityLabel, firstKeys, pickBest]
  refine ⟨hd, ?_⟩
  exact (predict_patient_majority_vote ⟨"CN", 1⟩ [⟨"AD", 1⟩, ⟨"CN", 1⟩, ⟨"AD", 1⟩]).2.2
    "AD" (by simp) (by rw [hd]; simp)

/-- C2: the aggregate confidence is the arithmetic mean of the confidence
field over only the predictions whose label equals the final diagnosis
(rounded to two decimals at the result dict, as in the source); on the
example `[AD(0.9), AD(0.7), CN(0.95)]` of the spec the diagnosis is `AD`, the
consensus 66.7 and the mean confidence 0.8 — not the overall mean 0.85 and
not the CN value 0.95. -/
theorem predict_patient_mean_confidence (p : SlicePred) (ps : List SlicePred) :
    ((p :: ps).filter
        (fun q => q.label = (predictPatient (p :: ps)).patientDiagnosis)) ≠ [] ∧
    (predictPatient (p :: ps)).confidence
      = roundTo 2
          ((((p :: ps).filter (fun q => q.label
              = (predictPatient (p :: ps)).patientDiagnosis)).map (fun q => q.conf)).sum
            / (((p :: ps).filter (fun q => q.label
              = (predictPatient (p :: ps)).patientDiagnosis)).length : ℚ)) ∧
    (predictPatient [⟨"AD", 9/10⟩, ⟨"AD", 7/10⟩, ⟨"CN", 19/20⟩]).patientDiagnosis
        = "AD" ∧
    (predictPatient [⟨"AD", 9/10⟩, ⟨"AD", 7/10⟩, ⟨"CN", 19/20⟩]).consensusStrength
        = 667/10 ∧
    (predictPatient [⟨"AD", 9/10⟩, ⟨"AD", 7/10⟩, ⟨"CN", 19/20⟩]).confidence = 8/10 ∧
    (predictPatient [⟨"AD", 9/10⟩, ⟨"AD", 7/10⟩, ⟨"CN", 19/20⟩]).confidence
        ≠ roundTo 2 ((9/10 + 7/10 + 19/20) / 3) ∧
    (predictPatient [⟨"AD", 9/10⟩, ⟨"AD", 7/10⟩, ⟨"CN", 19/20⟩]).confidence
        ≠ 19/20 := by
  have hd : (predictPatient (p :: ps)).patientDiagnosis
      = majorityLabel ((p :: ps).map (fun q => q.label)) := rfl
  have hmem : majorityLabel ((p :: ps).map (fun q => q.label))
      ∈ (p :: ps).map (fun q => q.label) := by
    rw [List.map_cons]
    exact majorityLabel_mem _ _
  obtain ⟨q, hq, hql⟩ := List.mem_map.mp hmem
  have hqf : q ∈ (p :: ps).filter
      (fun r => r.label = (predictPatient (p :: ps)).patientDiagnosis) :=
    List.mem_filter.mpr ⟨hq, by rw [hd]; simpa using hql⟩
  have hne := List.ne_nil_of_mem hqf
  have hconf : (predictPatient [⟨"AD", 9/10⟩, ⟨"AD", 7/10⟩, ⟨"CN", 19/20⟩]).confidence
      = 8/10 := by
    simp [predictPatient, majorityLabel, firstKeys, pickBest]
    rw [roundTo_of_lt_half 2 _ 80 (by norm_num) (by norm_num)]
    norm_num
  refine ⟨hne, ?_, ?_, ?_, hconf, ?_, ?_⟩
  · have h2 := predictPatient_confidence_eq (p :: ps) (by simpa only [hd] using hne)
    simpa only [hd] using h2
  · simp [predictPatient, majorityLabel, firstKeys, pickBest]
  · simp [predictPatient, majorityLabel, firstKeys, pickBest]
    rw [show ((2:ℚ)/3*100) = 200/3 by norm_num]
    rw [roundTo_of_gt_half 1 (200/3) 666 (by norm_num) (by norm_num)]
    norm_num
  · rw [hconf, roundTo_of_lt_half 2 _ 85 (by norm_num) (by norm_num)]
    norm_num
  · rw [hconf]
    norm_num

/-- C2 witness: the non-emptiness and mean-confidence equation instantiated
on the example of the spec itself. -/
theorem predict_patient_mean_confidence_witness :
    (([⟨"AD", 9/10⟩, ⟨"AD", 7/10⟩, ⟨"CN", 19/20⟩] : List SlicePred).filter
        (fun q => q.label
          = (predictPatient [⟨"AD", 9/10⟩, ⟨"AD", 7/10⟩, ⟨"CN", 19/20⟩]).patientDiagnosis))
      ≠ [] ∧
    (predictPatient [⟨"AD", 9/10⟩, ⟨"AD", 7/10⟩, ⟨"CN", 19/20⟩]).confidence = 8/10 := by
  have h := predict_patient_mean_confidence ⟨"AD", 9/10⟩ [⟨"AD", 7/10⟩, ⟨"CN", 19/20⟩]
  exact ⟨h.1, h.2.2.2.2.1⟩

/-- C8: the vote distribution has an entry for every class of the
vocabulary — a class with zero votes gets count 0 and percentage 0.0 — and
the percentages over all classes sum to 100 exactly before rounding, hence
to within 3 × 0.05 of 100 after the one-decimal rounding of the source. -/
theorem predict_patient_vote_distribution (p : SlicePred) (ps : List SlicePred)
    (h : ∀ q ∈ p :: ps, q.label ∈ classNames) :
    (∀ cls ∈ classNames,
        (cls, ((p :: ps).map (fun q => q.label)).count cls,
          roundTo 1 ((((p :: ps).map (fun q => q.label)).count cls : ℚ)
            / (((p :: ps).map (fun q => q.label)).length : ℚ) * 100))
          ∈ (predictPatient (p :: ps)).voteDistribution) ∧
    (∀ cls ∈ classNames, ((p :: ps).map (fun q => q.label)).count cls = 0 →
        (cls, 0, 0) ∈ (predictPatient (p :: ps)).voteDistribution) ∧
    (classNames.map (fun cls => ((((p :: ps).map (fun q => q.label)).count cls : ℚ)
        / (((p :: ps).map (fun q => q.label)).length : ℚ) * 100))).sum = 100 ∧
    |((predictPatient (p :: ps)).voteDistribution.map (fun e => e.2.2)).sum - 100|
      ≤ 3/20 := by
  have hvd : (predictPatient (p :: ps)).voteDistribution
      = classNames.map (fun cls =>
          (cls, ((p :: ps).map (fun q => q.label)).count cls,
            roundTo 1 ((((p :: ps).map (fun q => q.label)).count cls : ℚ)
              / (((p :: ps).map (fun q => q.label)).length : ℚ) * 100))) := rfl
  have hlabmem : ∀ x ∈ (p :: ps).map (fun q => q.label), x ∈ classNames := by
    intro x hx
    obtain ⟨q, hq, rfl⟩ := List.mem_map.mp hx
    exact h q hq
  have hnelab : (p :: ps).map (fun q => q.label) ≠ [] := by simp
  have hsum := sum_pct_exact ((p :: ps).map (fun q => q.label)) hnelab hlabmem
  refine ⟨?_, ?_, hsum, ?_⟩
  · intro cls hcls
    rw [hvd]
    exact List.mem_map_of_mem _ hcls
  · intro cls hcls h0
    have h1 : (cls, ((p :: ps).map (fun q => q.label)).count cls,
        roundTo 1 ((((p :: ps).map (fun q => q.label)).count cls : ℚ)
          / (((p :: ps).map (fun q => q.label)).length : ℚ) * 100))
        ∈ (predictPatient (p :: ps)).voteDistribution := by
      rw [hvd]
      exact List.mem_map_of_mem _ hcls
    rw [h0] at h1
    simpa [roundTo_zero] using h1
  · rw [hvd, List.map_map]
    have e1 := abs_roundTo_one_sub_le
      ((((p :: ps).map (fun q => q.label)).count "AD" : ℚ)
        / (((p :: ps).map (fun q => q.label)).length : ℚ) * 100)
    have e2 := abs_roundTo_one_sub_le
      ((((p :: ps).map (fun q => q.label)).count "CN" : ℚ)
        / (((p :: ps).map (fun q => q.label)).length : ℚ) * 100)
    have e3 := abs_roundTo_one_sub_le
      ((((p :: ps).map (fun q => q.label)).count "MCI" : ℚ)
        / (((p :: ps).map (fun q => q.label)).length : ℚ) * 100)
    simp only [classNames, List.map_cons, List.map_nil, List.sum_cons,
      List.sum_nil, Function.comp] at hsum e1 e2 e3 ⊢
    rw [abs_le] at e1 e2 e3 ⊢
    constructor <;> linarith

/-- C8 witness: the rounded percentages of a concrete single-prediction run
sum to within 0.15 of 100. -/
theorem predict_patient_vote_distribution_witness :
    |((predictPatient [⟨"AD", 9/10⟩]).voteDistribution.map (fun e => e.2.2)).sum - 100|
      ≤ 3/20 := by
  refine (predict_patient_vote_distribution ⟨"AD", 9/10⟩ [] ?_).2.2.2
  intro q hq
  rcases List.mem_cons.mp hq with rfl | h
  · simp [classNames]
  · simp at h

/-- C3: when the run reaches the status decision (run_model returned, the
prediction insert succeeded, similarity analysis and chart generation did
not raise), the final session status written to the record is `failed` iff
none of the three reports was uploaded, and `completed` iff at least one
was — regardless of the chart upload outcomes. -/
theorem orchestrator_final_status (m : MLResult) (v1 v2 v3 : VizOutcome)
    (p1 p2 p3 : PdfOutcome) (lf fs : List String) (rm : Bool) (filePath : String) :
    ((runAnalysisBackground
        ⟨false, .ok m, false, false, false, v1, v2, v3, p1, p2, p3, lf, rm⟩
        fs filePath).sessionStatus = "failed"
      ↔ (p1 ≠ PdfOutcome.uploaded ∧ p2 ≠ PdfOutcome.uploaded
          ∧ p3 ≠ PdfOutcome.uploaded)) ∧
    ((runAnalysisBackground
        ⟨false, .ok m, false, false, false, v1, v2, v3, p1, p2, p3, lf, rm⟩
        fs filePath).sessionStatus = "completed"
      ↔ (p1 = PdfOutcome.uploaded ∨ p2 = PdfOutcome.uploaded
          ∨ p3 = PdfOutcome.uploaded)) := by
  cases p1 <;> cases p2 <;> cases p3 <;>
    simp [runAnalysisBackground, vizErrors, pdfErrors, List.append_eq_nil]

/-- C3 witness: concrete all-reports-succeed and all-reports-fail runs. -/
theorem orchestrator_final_status_witness :
    (runAnalysisBackground
        ⟨false, .ok .mockRun, false, false, false, .uploaded, .uploaded, .uploaded,
          .uploaded, .uploaded, .uploaded, [], false⟩ [] "upload.nii").sessionStatus
      = "completed" ∧
    (runAnalysisBackground
        ⟨false, .ok .mockRun, false, false, false, .uploaded, .uploaded, .uploaded,
          .uploadFailed, .buildRaised, .uploadFailed, [], false⟩
        [] "upload.nii").sessionStatus
      = "failed" := by
  constructor
  · exact (orchestrator_final_status .mockRun .uploaded .uploaded .uploaded
      .uploaded .uploaded .uploaded [] [] false "upload.nii").2.mpr (Or.inl rfl)
  · exact (orchestrator_final_status .mockRun .uploaded .uploaded .uploaded
      .uploadFailed .buildRaised .uploadFailed [] [] false "upload.nii").1.mpr
      ⟨by simp, by simp, by simp⟩

/-- C4 (code bug): with slice extraction failing (step 2 raises, or the
slicer returns no images), `run_model` itself aborts — the result is the
error response, identical for every checkpoint/classifier outcome, so no
classification or volumetrics run — but it RETURNS the error dict instead
of raising, and `run_analysis_background` never inspects it: with the
prediction insert and the three reports succeeding, the session ends
`completed`, contradicting the claimed terminal `failed`. -/
theorem slice_extraction_failure_still_completes :
    (∀ (ck pa : Bool) (po : Except Unit (String × ℚ)),
        runModel ⟨false, false, none, ck, pa, po⟩
            = .ok (.errorResp "Slice extraction failed")
          ∧ runModel ⟨false, false, some [], ck, pa, po⟩
            = .ok (.errorResp "Slice extraction failed")) ∧
    (runAnalysisBackground
        ⟨false, runModel ⟨false, false, none, true, true, .ok ("CN", 90)⟩,
          false, false, false, .uploaded, .uploaded, .uploaded,
          .uploaded, .uploaded, .uploaded, [], false⟩ [] "upload.nii").sessionStatus
      = "completed" ∧
    ("completed" : String) ≠ "failed" := by
  refine ⟨fun ck pa po => ⟨rfl, rfl⟩, rfl, by decide⟩

/-- C5 counterexample: with the model available, a run where the first image
predicts and the second raises produces a real prediction followed by a
stand-in one — the run is neither all-real nor all-stand-in. -/
theorem mixed_prediction_sources :
    ¬ ((∀ s ∈ runPredictionSources true [ImgOutcome.ok "AD" 90, ImgOutcome.raises],
          s = PredSource.real)
      ∨ (∀ s ∈ runPredictionSources true [ImgOutcome.ok "AD" 90, ImgOutcome.raises],
          s = PredSource.mock)) := by
  intro h
  rcases h with h | h
  · have hc := h PredSource.mock
      (by simp [runPredictionSources, predictSingleImageSource])
    exact PredSource.noConfusion hc
  · have hc := h PredSource.real
      (by simp [runPredictionSources, predictSingleImageSource])
    exact PredSource.noConfusion hc

/-- C5 amended: the availability choice is constant within a run — an
unavailable model gives all-stand-in per-slice predictions, and `run_model`
falls back to an all-stand-in run when the predictor is unavailable — but
the per-image exception handler of `predict_single_image` substitutes a stand-in
prediction for just that image, so with the model available the run is
all-real only when no per-image prediction raises. -/
theorem prediction_source_selection (imgs : List ImgOutcome) :
    (∀ s ∈ runPredictionSources false imgs, s = PredSource.mock) ∧
    ((∀ i ∈ imgs, i ≠ ImgOutcome.raises) →
      ∀ s ∈ runPredictionSources true imgs, s = PredSource.real) ∧
    (∀ (x : String) (xs : List String) (ck : Bool) (po : Except Unit (String × ℚ)),
      runModel ⟨false, false, some (x :: xs), ck, false, po⟩ = .ok MLResult.mockRun) := by
  refine ⟨?_, ?_, ?_⟩
  · intro s hs
    obtain ⟨i, hi, rfl⟩ := List.mem_map.mp hs
    rfl
  · intro hno s hs
    obtain ⟨i, hi, rfl⟩ := List.mem_map.mp hs
    cases i with
    | ok lab conf => rfl
    | raises => exact absurd rfl (hno _ hi)
  · intro x xs ck po
    cases ck <;> rfl

/-- C5 amended witness: a one-image run is all-stand-in when unavailable and
all-real when available and the image prediction succeeds. -/
theorem prediction_source_selection_witness :
    (∀ s ∈ runPredictionSources false [ImgOutcome.ok "AD" 90], s = PredSource.mock) ∧
    (∀ s ∈ runPredictionSources true [ImgOutcome.ok "AD" 90], s = PredSource.real) := by
  refine ⟨(prediction_source_selection [ImgOutcome.ok "AD" 90]).1,
    (prediction_source_selection [ImgOutcome.ok "AD" 90]).2.1 ?_⟩
  intro i hi
  rcases List.mem_cons.mp hi with rfl | h
  · exact fun hc => ImgOutcome.noConfusion hc
  · simp at h

/-- C6 counterexample: the gray-matter value 500 lies inside the normative
range [450, 600] with midpoint 525; the claimed signed deviation
(value − mid)/mid × 100 is −100/21 ≈ −4.76, but the reported
`deviation_percent` is `round(abs(deviation), 1) = 4.8`. -/
theorem normal_deviation_not_signed :
    (compareToNormative 500 normGrayMatter).1 = "Normal" ∧
    (compareToNormative 500 normGrayMatter).2 = 24/5 ∧
    (500 - (normGrayMatter.min + normGrayMatter.max) / 2)
        / ((normGrayMatter.min + normGrayMatter.max) / 2) * 100 = -100/21 ∧
    ((24:ℚ)/5) ≠ -100/21 := by
  have h := compareToNormative_normal 500 normGrayMatter
    (by norm_num [normGrayMatter]) (by norm_num [normGrayMatter])
  rw [h]
  refine ⟨rfl, ?_, by norm_num [normGrayMatter], by norm_num⟩
  show roundTo 1 |(500 - (normGrayMatter.min + normGrayMatter.max) / 2)
      / ((normGrayMatter.min + normGrayMatter.max) / 2) * 100| = 24/5
  rw [show (500 - (normGrayMatter.min + normGrayMatter.max) / 2)
      / ((normGrayMatter.min + normGrayMatter.max) / 2) * 100 = -(100/21)
    by norm_num [normGrayMatter]]
  rw [abs_neg, abs_of_pos (by norm_num)]
  rw [roundTo_of_gt_half 1 (100/21) 47 (by norm_num) (by norm_num)]
  norm_num

/-- C6 amended: the classification boundaries are as claimed — a value equal
to min or max is `Normal`, strictly below min is `Below Normal` with the
below formula, strictly above max is `Above Normal` with the above
formula — but `deviation_percent` is `round(abs(deviation), 1)`, the rounded
absolute value of the claimed formulas, not a signed value. -/
theorem compare_to_normative_spec (value : ℚ) (norm : NormRange) :
    (value < norm.min →
      compareToNormative value norm
        = ("Below Normal", roundTo 1 |(norm.min - value) / norm.min * 100|)) ∧
    (norm.max < value → norm.min ≤ value →
      compareToNormative value norm
        = ("Above Normal", roundTo 1 |(value - norm.max) / norm.max * 100|)) ∧
    (norm.min ≤ value → value ≤ norm.max →
      compareToNormative value norm
        = ("Normal", roundTo 1
            |(value - (norm.min + norm.max) / 2) / ((norm.min + norm.max) / 2) * 100|)) ∧
    (norm.min ≤ norm.max →
      (compareToNormative norm.min norm).1 = "Normal"
        ∧ (compareToNormative norm.max norm).1 = "Normal") := by
  refine ⟨?_, ?_, ?_, ?_⟩
  · exact fun h => compareToNormative_below value norm h
  · exact fun h2 h1 => compareToNormative_above value norm (not_lt.mpr h1) h2
  · intro h1 h2
    exact compareToNormative_normal value norm (not_lt.mpr h1) (not_lt.mpr h2)
  · intro h
    constructor
    · rw [compareToNormative_normal norm.min norm (lt_irrefl _) (not_lt.mpr h)]
    · rw [compareToNormative_normal norm.max norm (not_lt.mpr h) (lt_irrefl _)]

/-- C6 amended witness: the four branches on concrete gray-matter values. -/
theorem compare_to_normative_spec_witness :
    compareToNormative 400 normGrayMatter
        = ("Below Normal", roundTo 1 |((450:ℚ) - 400) / 450 * 100|) ∧
    compareToNormative 650 normGrayMatter
        = ("Above Normal", roundTo 1 |((650:ℚ) - 600) / 600 * 100|) ∧
    (compareToNormative 450 normGrayMatter).1 = "Normal" ∧
    (compareToNormative 600 normGrayMatter).1 = "Normal" := by
  refine ⟨?_, ?_, ?_, ?_⟩
  · have h := (compare_to_normative_spec 400 normGrayMatter).1
      (by norm_num [normGrayMatter])
    simpa [normGrayMatter] using h
  · have h := (compare_to_normative_spec 650 normGrayMatter).2.1
      (by norm_num [normGrayMatter]) (by norm_num [normGrayMatter])
    simpa [normGrayMatter] using h
  · exact ((compare_to_normative_spec 450 normGrayMatter).2.2.2
      (by norm_num [normGrayMatter])).1
  · exact ((compare_to_normative_spec 600 normGrayMatter).2.2.2
      (by norm_num [normGrayMatter])).2

/-- C7: gray-matter volume is (sum of the probability-map voxel values) ×
(product of the three voxel spacings, mm³) / 1000 (rounded to two decimals
at the result dict, as in the source); with spacing (1.5,1.5,1.5) and voxel
sum 400000 it is 1350.0; a supplied white-matter map uses the identical
formula, otherwise white matter is the gray volume times the fixed 0.88
ratio; total brain volume is gray plus white. -/
theorem extract_volumes_formulas :
    (∀ (img : NiftiImage) (wm : Option NiftiImage),
        (extractVolumesFromNifti img wm).gm
          = roundTo 2 (img.data.sum * voxelVolume img / 1000)) ∧
    (extractVolumesFromNifti ⟨[250000, 150000], (3/2, 3/2, 3/2)⟩ none).gm = 1350 ∧
    (∀ (img w : NiftiImage),
        (extractVolumesFromNifti img (some w)).wm
          = roundTo 2 (w.data.sum * voxelVolume w / 1000)) ∧
    (∀ (img : NiftiImage),
        (extractVolumesFromNifti img none).wm
          = roundTo 2 (img.data.sum * voxelVolume img / 1000 * (88/100))) ∧
    (∀ (img w : NiftiImage),
        (extractVolumesFromNifti img (some w)).brain
          = roundTo 2 (img.data.sum * voxelVolume img / 1000
              + w.data.sum * voxelVolume w / 1000)) ∧
    (∀ (img : NiftiImage),
        (extractVolumesFromNifti img none).brain
          = roundTo 2 (img.data.sum * voxelVolume img / 1000
              + img.data.sum * voxelVolume img / 1000 * (88/100))) := by
  refine ⟨fun img wm => rfl, ?_, fun img w => rfl, fun img => rfl, fun img w => rfl,
    fun img => rfl⟩
  have h : (extractVolumesFromNifti ⟨[250000, 150000], (3/2, 3/2, 3/2)⟩ none).gm
      = roundTo 2 (([250000, 150000] : List ℚ).sum
          * voxelVolume ⟨[250000, 150000], (3/2, 3/2, 3/2)⟩ / 1000) := rfl
  rw [h, show (([250000, 150000] : List ℚ).sum
      * voxelVolume ⟨[250000, 150000], (3/2, 3/2, 3/2)⟩ / 1000) = 1350
    by norm_num [voxelVolume, List.sum_cons]]
  rw [roundTo_of_lt_half 2 1350 135000 (by norm_num) (by norm_num)]
  norm_num

/-- C9: `_normalize_intensity` computes p99 over all voxels; when p99 is
zero the volume is returned unmodified without dividing; otherwise every
voxel is clipped to [0, p99] and rescaled by 255/p99, and every output value
lies in [0, 255]. -/
theorem normalize_intensity_safe (data : List ℚ) :
    (percentileLinear 99 data = 0 → normalizeIntensity data = data) ∧
    (0 < percentileLinear 99 data →
      normalizeIntensity data
          = data.map (fun x => min (percentileLinear 99 data) (max x 0)
              / percentileLinear 99 data * 255) ∧
      ∀ y ∈ normalizeIntensity data, 0 ≤ y ∧ y ≤ 255) := by
  constructor
  · intro h
    unfold normalizeIntensity
    rw [if_pos h]
  · intro h
    have hne : percentileLinear 99 data ≠ 0 := ne_of_gt h
    have heq : normalizeIntensity data
        = data.map (fun x => min (percentileLinear 99 data) (max x 0)
            / percentileLinear 99 data * 255) := by
      unfold normalizeIntensity
      rw [if_neg hne]
    refine ⟨heq, ?_⟩
    intro y hy
    rw [heq] at hy
    obtain ⟨x, hx, rfl⟩ := List.mem_map.mp hy
    have h0 : 0 ≤ min (percentileLinear 99 data) (max x 0) :=
      le_min h.le (le_max_right _ _)
    have h1 : min (percentileLinear 99 data) (max x 0) ≤ percentileLinear 99 data :=
      min_le_left _ _
    constructor
    · exact mul_nonneg (div_nonneg h0 h.le) (by norm_num)
    · have h2 : min (percentileLinear 99 data) (max x 0) / percentileLinear 99 data ≤ 1 :=
        (div_le_one h).mpr h1
      calc min (percentileLinear 99 data) (max x 0) / percentileLinear 99 data * 255
          ≤ 1 * 255 := mul_le_mul_of_nonneg_right h2 (by norm_num)
        _ = 255 := one_mul _

/-- C9 witness: an all-zero volume is returned unchanged; a positive volume
is rescaled into [0, 255]. -/
theorem normalize_intensity_safe_witness :
    normalizeIntensity [0] = [0] ∧
    ∀ y ∈ normalizeIntensity [5], 0 ≤ y ∧ y ≤ 255 := by
  have hz : percentileLinear 99 ([0] : List ℚ) = 0 := by
    norm_num [percentileLinear, List.insertionSort, List.orderedInsert]
  have hp : percentileLinear 99 ([5] : List ℚ) = 5 := by
    norm_num [percentileLinear, List.insertionSort, List.orderedInsert]
  exact ⟨(normalize_intensity_safe [0]).1 hz,
    ((normalize_intensity_safe [5]).2 (by rw [hp]; norm_num)).2⟩

/-- C10 counterexample: the cleanup is not guaranteed on every exit path.
If `get_supabase_client()` (called before the `try`) raises, the `finally`
block never runs; and if `os.remove` itself raises, `except: pass` swallows
the error — in both concrete runs below the uploaded temp file is still
present afterwards, refuting the claimed unconditional absence. -/
theorem temp_file_survives_failed_cleanup :
    "upload.nii" ∈ (runAnalysisBackground
        ⟨true, .ok .mockRun, false, false, false, .uploaded, .uploaded, .uploaded,
          .uploaded, .uploaded, .uploaded, [], false⟩
        ["upload.nii"] "upload.nii").finalFiles ∧
    "upload.nii" ∈ (runAnalysisBackground
        ⟨false, .ok .mockRun, false, false, false, .uploaded, .uploaded, .uploaded,
          .uploaded, .uploaded, .uploaded, [], true⟩
        ["upload.nii"] "upload.nii").finalFiles := by
  constructor
  · simp [runAnalysisBackground]
  · simp [runAnalysisBackground]

/-- C10 amended: the `finally` block attempts the removal on every exit
path of the `try` body — success, partial failure, or fatal failure at any
stage, whatever the outcomes `mlRun`, `pi`, `si`, `ch`, the chart and
report attempts and the files created — and the uploaded temp file is
absent afterwards whenever the client initialization before the `try` did
not raise and the `os.remove` call itself did not fail. -/
theorem temp_file_absent_when_remove_succeeds (mlRun : Except Unit MLResult)
    (pi si ch : Bool) (v1 v2 v3 : VizOutcome) (p1 p2 p3 : PdfOutcome)
    (lf fs : List String) (filePath : String) :
    filePath ∉ (runAnalysisBackground
        ⟨false, mlRun, pi, si, ch, v1, v2, v3, p1, p2, p3, lf, false⟩
        fs filePath).finalFiles := by
  intro hmem
  simp only [runAnalysisBackground, Bool.false_eq_true, if_false] at hmem
  by_cases hin : filePath ∈ fs ++ lf
  · rw [if_pos hin] at hmem
    have h := (List.mem_filter.mp hmem).2
    simp at h
  · rw [if_neg hin] at hmem
    exact hin hmem

/-- C10 amended witness: a concrete fatally-failing run with a successful
remove leaves the temp file absent. -/
theorem temp_file_absent_when_remove_succeeds_witness :
    "upload.nii" ∉ (runAnalysisBackground
        ⟨false, .error (), false, false, false, .noData, .noData, .noData,
          .buildRaised, .buildRaised, .buildRaised, ["slices"], false⟩
        ["upload.nii", "slices"] "upload.nii").finalFiles :=
  temp_file_absent_when_remove_succeeds (.error ()) false false false
    .noData .noData .noData .buildRaised .buildRaised .buildRaised
    ["slices"] ["upload.nii", "slices"] "upload.nii"

end MriPlatform
